import Mathlib

/-!
Verification development for the sec-feed repository (Go).

The Go source is shallowly embedded over `Str := List Char` (Go strings at
rune level).  Each definition carries a comment naming the Go function or
source line it translates.  File-system state is an association list from
path to file content; the external rss library's fetch/update operations are
taken as parameters of the reconciler.
-/

namespace SecFeed

/-- Go strings are modelled as rune lists. -/
abbrev Str := List Char

/-! ## Go string primitives used by the source -/

/-- Helper for `strings.Contains`: does `s` start with `pat`? -/
def strStartsWith : Str → Str → Bool
  | _, [] => true
  | [], _ :: _ => false
  | c :: cs, p :: ps => c == p && strStartsWith cs ps

/-- `strings.Contains s pat` (case-sensitive substring test, main.go:159/190/234). -/
def goContains : Str → Str → Bool
  | [], pat => pat.isEmpty
  | c :: rest, pat => strStartsWith (c :: rest) pat || goContains rest pat

/-- `strings.Split s sep` specialised to a one-rune separator
(used with `"("` at main.go:242 and by `filepath.Clean` on `"/"`). -/
def splitChar (sep : Char) : Str → List Str
  | [] => [[]]
  | c :: rest =>
    if c = sep then [] :: splitChar sep rest
    else
      match splitChar sep rest with
      | [] => [[c]]
      | seg :: segs => (c :: seg) :: segs

/-- `strings.Split s ", "` (the two-rune separator of main.go:245):
splits around each non-overlapping, leftmost-first occurrence of comma-space. -/
def splitCommaSpace : Str → List Str
  | [] => [[]]
  | ',' :: ' ' :: rest => [] :: splitCommaSpace rest
  | c :: rest =>
    match splitCommaSpace rest with
    | [] => [[c]]
    | seg :: segs => (c :: seg) :: segs

/-- ASCII whitespace, the cases of `strings.TrimSpace` relevant to feed titles. -/
def goIsSpace (c : Char) : Bool :=
  c == ' ' || c == '\t' || c == '\n' || c == '\r'

/-- `strings.TrimSpace` (main.go:244/247). -/
def goTrimSpace (s : Str) : Str :=
  ((s.dropWhile goIsSpace).reverse.dropWhile goIsSpace).reverse

/-- `strings.Trim s cutset` (main.go:243 uses cutset `"()"`). -/
def goTrimChars (cutset : Str) (s : Str) : Str :=
  ((s.dropWhile (fun c => cutset.contains c)).reverse.dropWhile
    (fun c => cutset.contains c)).reverse

/-- `strings.ToLower` (main.go:261; titles here are ASCII). -/
def goToLower (s : Str) : Str := s.map Char.toLower

/-- `strings.Join parts (String.singleton sep)`, used by `filepath.Join`. -/
def joinSep (sep : Char) : List Str → Str
  | [] => []
  | [s] => s
  | s :: rest => s ++ sep :: joinSep sep rest

/-! ## `filepath.Clean` and `filepath.Join` (Go path/filepath, Unix rules) -/

/-- Keep a path component unless it is empty or `"."`. -/
def cleanKeep (c : Str) : Bool := !(c.isEmpty || c == ['.'])

/-- One step of `filepath.Clean`'s component processing: `".."` pops the last
component when possible, is dropped at an absolute root, and is kept otherwise. -/
def cleanStep (abs : Bool) (stack : List Str) (comp : Str) : List Str :=
  if comp == ['.', '.'] then
    if !stack.isEmpty && stack.getLast? != some ['.', '.'] then stack.dropLast
    else if abs then stack
    else stack ++ [comp]
  else stack ++ [comp]

/-- The processed component list of `filepath.Clean p`. -/
def cleanComps (p : Str) (abs : Bool) : List Str :=
  ((splitChar '/' p).filter cleanKeep).foldl (cleanStep abs) []

/-- `filepath.Clean` (lexical path normalisation, Unix separator). -/
def clean (p : Str) : Str :=
  let abs := p.head? == some '/'
  let out := cleanComps p abs
  if abs then (if out.isEmpty then ['/'] else '/' :: joinSep '/' out)
  else (if out.isEmpty then ['.'] else joinSep '/' out)

/-- `filepath.Join`: skip leading empty elements, join the rest with `/`, clean. -/
def goJoinList : List Str → Str
  | [] => []
  | p :: ps => if p.isEmpty then goJoinList ps else clean (joinSep '/' (p :: ps))

/-! ## Data model (the used fields of `rss.Item` / `rss.Feed`) -/

/-- The fields of `rss.Item` this program reads or writes
(`Date` abstracts `time.Time` as a timestamp). -/
structure Item where
  Title : Str
  Link : Str
  Date : Nat
  Summary : Str
  Read : Bool
deriving DecidableEq

/-- The fields of `rss.Feed` this program reads or writes. -/
structure Feed where
  Items : List Item
  Unread : Nat
deriving DecidableEq

/-- The content fields of an entry, without the seen flag. -/
def itemContent (i : Item) : Str × Str × Nat × Str :=
  (i.Title, i.Link, i.Date, i.Summary)

/-- The mark-all-read step of `cacheFeed` (main.go:80-83): every item's
`Read` flag is forced true and `Unread` is zeroed. -/
def markAllRead (f : Feed) : Feed :=
  { Items := f.Items.map (fun i => { i with Read := true }), Unread := 0 }

/-- What a file at the cache path can hold: a JSON document that unmarshals
to a feed, or bytes that fail to read or unmarshal. -/
inductive FileContent where
  | corrupt
  | feedDoc (f : Feed)
deriving DecidableEq

/-- File system as an association list from path to content (newest first). -/
abbrev FS := List (Str × FileContent)

/-- Path lookup in the file-system model. -/
def lookupFS (fs : FS) (p : Str) : Option FileContent :=
  (fs.find? (fun e => e.1 == p)).map (fun e => e.2)

/-- Result of `loadCachedFeed` (main.go:63-76): success, the distinguished
`os.ErrNotExist`, or any other read/unmarshal error (returning a nil feed). -/
inductive LoadResult where
  | found (f : Feed)
  | notExist
  | otherErr
deriving DecidableEq

/-- `loadCachedFeed` (main.go:63-76): read the file and unmarshal it. -/
def loadCachedFeed (fs : FS) (path : Str) : LoadResult :=
  match lookupFS fs path with
  | none => .notExist
  | some .corrupt => .otherErr
  | some (.feedDoc f) => .found f

/-- `cacheFeed` (main.go:78-95): mark all items read, zero the unread count,
marshal and write to the cache path (JSON round-trip modelled as exact). -/
def cacheFeed (fs : FS) (path : Str) (feed : Feed) : FS :=
  (path, .feedDoc (markAllRead feed)) :: fs

/-- Outcome of `fetch_feed` (main.go:97-127).  `updateInvokedOnNil` is the
run in which the load returned a non-`ErrNotExist` error, so `feed` is nil
and `feed.Update()` (main.go:108) is invoked with a nil receiver. -/
inductive FetchOutcome where
  | ok (feed : Feed) (cached : Bool)
  | err
  | updateInvokedOnNil
deriving DecidableEq

/-- `fetch_feed` (main.go:97-127).  The external rss library is abstracted:
`update f` is the result of `f.Update()` on a loaded feed (`none` = failure,
`some g` = the feed after the in-place update), and `fetchUpstream` is the
result of `rss.Fetch` (`none` = failure). -/
def fetch_feed (fs : FS) (path : Str) (update : Feed → Option Feed)
    (fetchUpstream : Option Feed) (ignoreUpdate : Bool) : FetchOutcome :=
  match loadCachedFeed fs path with
  | .found f =>
    match update f with
    | some g => .ok g true
    | none => if ignoreUpdate then .ok f true else .err
  | .otherErr => .updateInvokedOnNil
  | .notExist =>
    match fetchUpstream with
    | some f => .ok f false
    | none => .err

/-! ## Filter engine (the inner loops of main.go:156-164, 187-195, 231-239) -/

/-- The inner filter loop for one entry: try filters in order, `break` on the
first hit. -/
def filterHit (title : Str) : List Str → Bool
  | [] => false
  | f :: rest => if goContains title f then true else filterHit title rest

/-- The matching loop: keep entries whose title hits some filter, in entry
order.  `filters` is the iteration order of the Go filter map's values. -/
def matchFilters : List Item → List Str → List Item
  | [], _ => []
  | item :: rest, filters =>
    if filterHit item.Title filters then item :: matchFilters rest filters
    else matchFilters rest filters

/-- `cmdNewItems` (main.go:135-173) up to rendering: the candidate set is the
unread items when `cached` holds and is empty otherwise (the candidate list
is collected before `cacheFeed` mutates the flags); the returned list is the
sequence of items rendered to standard output, in order. -/
def cmdNewItems (fs : FS) (cachePath : Str) (feed : Feed)
    (filters : List Str) (cached : Bool) : FS × List Item :=
  let newItems := if cached then feed.Items.filter (fun i => !i.Read) else []
  (cacheFeed fs cachePath feed, matchFilters newItems filters)

/-- `cmdAll` (main.go:176-205) up to rendering. -/
def cmdAll (fs : FS) (cachePath : Str) (feed : Feed)
    (filters : List Str) : FS × List Item :=
  (cacheFeed fs cachePath feed, matchFilters feed.Items filters)

/-! ## Site-page generation (`cmdGenerate`, main.go:220-276) -/

/-- `PageMeta` (main.go:208-213). -/
structure PageMeta where
  Title : Str
  Link : Str
  Date : Nat
  Tags : List Str
deriving DecidableEq

/-- `PageData` (main.go:215-218). -/
structure PageData where
  Meta : PageMeta
  Summary : Str
deriving DecidableEq

/-- The per-item page construction of main.go:242-259.  `none` is the run in
which `tmp := strings.Split(item.Title, "(")` has a single element (the title
has no `"("`), so the access `tmp[1]` at main.go:243 panics. -/
def genPage (item : Item) : Option PageData :=
  match splitChar '(' item.Title with
  | t0 :: t1 :: _ =>
    let tmpTags := goTrimSpace (goTrimChars "()".data t1)
    let tags := splitCommaSpace tmpTags
    let title := goTrimSpace t0
    some { Meta := { Title := title, Link := item.Link,
                     Date := item.Date, Tags := tags },
           Summary := item.Summary }
  | _ => none

/-- The output path of main.go:261-262:
`filepath.Join(siteFilePath, "/content/cve/", filepath.Clean(strings.ToLower(title)) + ".md")`. -/
def genFileName (siteFilePath title : Str) : Str :=
  let lowerCve := clean (goToLower title)
  goJoinList [siteFilePath, "/content/cve/".data, lowerCve ++ ".md".data]

/-- Why a generation batch stopped. -/
inductive GenFailure where
  | titleNoParen (title : Str)
  | writeFailed (path : Str)
deriving DecidableEq

/-- Result of the generation loop: the pages written (path and contents, in
order) and the failure that stopped the batch, if any. -/
structure GenResult where
  written : List (Str × PageData)
  failure : Option GenFailure
deriving DecidableEq

/-- The generation loop of main.go:241-273.  `w path` models whether opening
and rendering the file at `path` succeeds.  A title without `"("` panics at
main.go:243 and a write failure returns at main.go:264-266 / 270-272; either
way no later item is attempted. -/
def generateItems (site : Str) (w : Str → Bool) : List Item → GenResult
  | [] => { written := [], failure := none }
  | item :: rest =>
    match genPage item with
    | none => { written := [], failure := some (.titleNoParen item.Title) }
    | some page =>
      let path := genFileName site page.Meta.Title
      if w path then
        let r := generateItems site w rest
        { written := (path, page) :: r.written, failure := r.failure }
      else
        { written := [], failure := some (.writeFailed path) }

/-- Whether one item passes the generation loop without stopping the batch. -/
def genItemOk (site : Str) (w : Str → Bool) (i : Item) : Bool :=
  match genPage i with
  | none => false
  | some page => w (genFileName site page.Meta.Title)

/-- `cmdGenerate` (main.go:220-276) up to rendering: cache first, then match,
then run the generation loop. -/
def cmdGenerate (fs : FS) (cachePath siteFilePath : Str) (w : Str → Bool)
    (feed : Feed) (filters : List Str) : FS × GenResult :=
  (cacheFeed fs cachePath feed,
   generateItems siteFilePath w (matchFilters feed.Items filters))

/-- The open flags of main.go:263: `os.O_CREATE|os.O_WRONLY` — no `os.O_TRUNC`. -/
structure OpenFlags where
  create : Bool
  wronly : Bool
  trunc : Bool
deriving DecidableEq

/-- The flag set the generation loop passes to `os.OpenFile` (main.go:263). -/
def cmdGenerateOpenFlags : OpenFlags :=
  { create := true, wronly := true, trunc := false }

/-- POSIX semantics of opening with `flags` and writing `data` from offset 0:
without `O_TRUNC`, bytes of an existing longer file beyond `data` survive. -/
def fileAfterOpenWrite (flags : OpenFlags) (old : Option Str) (data : Str) :
    Option Str :=
  match old with
  | none => if flags.create then some data else none
  | some oldData =>
    some (if flags.trunc then data else data ++ oldData.drop data.length)

/-! ## Filter store adapter (the second source file) -/

/-- Errors of the filter walk: the distinguished empty-filter-file error
(`ErrEmptyFilterFile`, carrying the file path) or a directory-walk error. -/
inductive FilterErr where
  | emptyFilterFile (path : Str)
  | walkError
deriving DecidableEq

/-- `firstNonEmptyLine` (filter source, lines 19-48), over the file's lines:
skip lines that are blank after `TrimSpace`; if none remains, fail with
`ErrEmptyFilterFile` naming the path. -/
def firstNonEmptyLine (path : Str) : List Str → Except FilterErr Str
  | [] => .error (.emptyFilterFile path)
  | l :: rest =>
    if (goTrimSpace l).isEmpty then firstNonEmptyLine path rest else .ok l

/-- One entry seen by `filepath.WalkDir`, in walk order. -/
structure DirEntry where
  path : Str
  name : Str
  regular : Bool
  walkErr : Bool
  lines : List Str

/-- A file whose every line is blank after `TrimSpace`. -/
def isBlankFile (lines : List Str) : Bool :=
  lines.all (fun l => (goTrimSpace l).isEmpty)

/-- `WalkAllFilesInFilterDir` (filter source, lines 50-75): walk the entries
in order; propagate walk errors, skip non-regular entries, read each regular
file's first non-blank line, fail fast on any error.  On success the filter
map is the name/filter association in walk order. -/
def WalkAllFilesInFilterDir : List DirEntry → Except FilterErr (List (Str × Str))
  | [] => .ok []
  | e :: rest =>
    if e.walkErr then .error .walkError
    else if !e.regular then WalkAllFilesInFilterDir rest
    else
      match firstNonEmptyLine e.path e.lines with
      | .error err => .error err
      | .ok filter =>
        (WalkAllFilesInFilterDir rest).map (fun m => (e.name, filter) :: m)

/-! ## Helper lemmas -/

/-- The short-circuiting inner filter loop computes the any-of-filters test. -/
theorem filterHit_eq_any (t : Str) :
    ∀ fs : List Str, filterHit t fs = fs.any (fun f => goContains t f)
  | [] => rfl
  | f :: rest => by
    simp only [filterHit, List.any_cons, filterHit_eq_any t rest]
    cases goContains t f <;> simp

/-- Sample entry used by witnesses. -/
def item0 : Item :=
  { Title := "CVE-2024-0001 (Linux)".data, Link := "https://e/1".data,
    Date := 7, Summary := "summary".data, Read := false }

/-- Sample feed used by witnesses. -/
def feed0 : Feed := { Items := [item0], Unread := 1 }

/-- Splitting a string that starts with the separator emits an empty segment. -/
theorem splitChar_sep_head (c : Char) (ys : Str) :
    splitChar c (c :: ys) = [] :: splitChar c ys := by
  simp [splitChar]

/-- Splitting a separator-free string yields that single segment. -/
theorem splitChar_no_sep (c : Char) :
    ∀ xs : Str, (∀ a ∈ xs, a ≠ c) → splitChar c xs = [xs]
  | [], _ => rfl
  | x :: xs, h => by
    rw [splitChar, if_neg (h x (List.mem_cons_self x xs)),
      splitChar_no_sep c xs (fun a ha => h a (List.mem_cons_of_mem x ha))]

/-- Splitting peels off a leading separator-free segment. -/
theorem splitChar_peel (c : Char) :
    ∀ xs : Str, ∀ ys : Str, (∀ a ∈ xs, a ≠ c) →
      splitChar c (xs ++ c :: ys) = xs :: splitChar c ys
  | [], ys, _ => by simp [splitChar]
  | x :: xs, ys, h => by
    rw [List.cons_append, splitChar, if_neg (h x (List.mem_cons_self x xs)),
      splitChar_peel c xs ys (fun a ha => h a (List.mem_cons_of_mem x ha))]

/-- `dropWhile` keeps a list whose every element fails the predicate. -/
theorem dropWhile_all_false {p : Char → Bool} :
    ∀ l : Str, (∀ a ∈ l, p a = false) → l.dropWhile p = l
  | [], _ => rfl
  | x :: xs, h => by
    rw [List.dropWhile_cons, h x (List.mem_cons_self x xs)]
    simp

/-- Trimming the cutset `"()"` from a paren-free text followed by the closing
`')'` (the shape `tmp[1]` has for a title `pre(inner)`) recovers the text. -/
theorem trimParens_close (inner : Str)
    (h : ∀ a ∈ inner, a ≠ '(' ∧ a ≠ ')') :
    goTrimChars "()".data (inner ++ [')']) = inner := by
  have hp : ∀ a ∈ inner, ("()".data.contains a) = false := by
    intro a ha
    have h1 : (a == '(') = false := by simp [(h a ha).1]
    have h2 : (a == ')') = false := by simp [(h a ha).2]
    show (['(', ')'].contains a) = false
    simp [List.contains, List.elem, h1, h2]
  unfold goTrimChars
  cases inner with
  | nil => simp [List.dropWhile]
  | cons x xs =>
    rw [List.cons_append, List.dropWhile_cons,
      hp x (List.mem_cons_self x xs)]
    simp only [Bool.false_eq_true, if_false]
    rw [show (x :: (xs ++ [')'])).reverse = ')' :: (x :: xs).reverse by simp]
    rw [List.dropWhile_cons]
    simp only [show (("()".data).contains ')') = true from rfl, if_true]
    rw [dropWhile_all_false ((x :: xs).reverse)
      (fun a ha => hp a (List.mem_reverse.mp ha))]
    exact List.reverse_reverse _

/-! ## Claims -/

/-- C1: saving a feed snapshot to the cache path and loading it back yields a
snapshot with the same entries (title, link, date, summary), except that every
entry's seen flag is true and the unseen count is 0, regardless of the flags'
prior values. -/
theorem C1_save_load_roundtrip (fs : FS) (p : Str) (f : Feed) :
    loadCachedFeed (cacheFeed fs p f) p = .found (markAllRead f) ∧
    (markAllRead f).Items.map itemContent = f.Items.map itemContent ∧
    (∀ i ∈ (markAllRead f).Items, i.Read = true) ∧
    (markAllRead f).Unread = 0 := by
  refine ⟨?_, ?_, ?_, rfl⟩
  · simp [loadCachedFeed, cacheFeed, lookupFS, List.find?]
  · simp only [markAllRead, List.map_map]
    have h : (itemContent ∘ fun i => { i with Read := true }) = itemContent :=
      funext fun i => rfl
    rw [h]
  · intro i hi
    simp only [markAllRead, List.mem_map] at hi
    obtain ⟨j, _, rfl⟩ := hi
    rfl

/-- C2: the filter engine returns exactly the entries whose title contains at
least one filter string as a case-sensitive substring, each included at most
once (the first matching filter short-circuits the rest), in the input entry
order — i.e. it is `List.filter` by the any-filter-matches predicate, and the
output is a sublist of the input. -/
theorem C2_filter_engine (items : List Item) (filters : List Str) :
    matchFilters items filters
      = items.filter (fun i => filters.any (fun f => goContains i.Title f)) ∧
    List.Sublist (matchFilters items filters) items := by
  have heq : matchFilters items filters
      = items.filter (fun i => filters.any (fun f => goContains i.Title f)) := by
    induction items with
    | nil => rfl
    | cons i rest ih =>
      simp only [matchFilters, filterHit_eq_any, List.filter_cons, ih]
  exact ⟨heq, heq ▸ List.filter_sublist items⟩

/-- C3: when a cached snapshot was loaded and the feed update fails, the
reconciler with `ignoreUpdate` set returns the stale cached snapshot with
`cached = true` and no error, and with `ignoreUpdate` unset it propagates the
failure and returns no snapshot. -/
theorem C3_update_failure (fs : FS) (p : Str) (f : Feed)
    (update : Feed → Option Feed) (fetchUpstream : Option Feed)
    (hload : lookupFS fs p = some (.feedDoc f)) (hupd : update f = none) :
    fetch_feed fs p update fetchUpstream true = .ok f true ∧
    fetch_feed fs p update fetchUpstream false = .err := by
  simp [fetch_feed, loadCachedFeed, hload, hupd]

/-- Witness for C3 at a concrete cache, feed and failing update. -/
theorem C3_update_failure_witness :
    fetch_feed [("cache.json".data, .feedDoc feed0)] "cache.json".data
        (fun _ => none) none true = .ok feed0 true ∧
    fetch_feed [("cache.json".data, .feedDoc feed0)] "cache.json".data
        (fun _ => none) none false = .err :=
  C3_update_failure [("cache.json".data, .feedDoc feed0)] "cache.json".data
    feed0 (fun _ => none) none (by decide) rfl

/-- C4: in "new" mode with a freshly fetched snapshot (`cached = false`), the
digest item list is empty for every snapshot contents and every non-empty
filter set — no entry of a fresh fetch is treated as new. -/
theorem C4_fresh_fetch_empty (fs : FS) (cachePath : Str) (feed : Feed)
    (filters : List Str) (hne : filters ≠ []) :
    (cmdNewItems fs cachePath feed filters false).2 = [] := rfl

/-- Witness for C4 at a concrete feed with unread entries and a matching
non-empty filter set. -/
theorem C4_fresh_fetch_empty_witness :
    (["CVE".data] : List Str) ≠ [] ∧
    (cmdNewItems [] "cache.json".data feed0 ["CVE".data] false).2 = [] :=
  ⟨by decide, C4_fresh_fetch_empty [] "cache.json".data feed0 ["CVE".data]
    (by decide)⟩

/-- C10: when a cache file exists but cannot be loaded (read or unmarshal
error, not the file-not-exist condition), the reconciler takes the
cache-found branch with a nil snapshot and invokes the update step on the nil
receiver — it neither falls back to a fresh fetch (the outcome is independent
of `fetchUpstream`) nor reports the load error. -/
theorem C10_corrupt_cache_hits_nil_update (fs : FS) (p : Str)
    (update : Feed → Option Feed) (fetchUpstream : Option Feed)
    (ignoreUpdate : Bool) (h : lookupFS fs p = some .corrupt) :
    fetch_feed fs p update fetchUpstream ignoreUpdate = .updateInvokedOnNil := by
  simp [fetch_feed, loadCachedFeed, h]

/-- Witness for C10 at a concrete corrupt cache file. -/
theorem C10_corrupt_cache_hits_nil_update_witness :
    fetch_feed [("cache.json".data, .corrupt)] "cache.json".data
      (fun f => some f) (some feed0) false = .updateInvokedOnNil :=
  C10_corrupt_cache_hits_nil_update [("cache.json".data, .corrupt)]
    "cache.json".data (fun f => some f) (some feed0) false (by decide)

/-- The tag list as the claim's words read: the comma-separated items of the
text inside the parentheses, each trimmed.  Stated for comparison with the
code's tag computation (which the amended C5 describes). -/
def claimedTagList (inner : Str) : List Str :=
  (splitChar ',' inner).map goTrimSpace

/-- C5 counterexample: for the title `"A (X,Y)"` the text inside the
parentheses is `"X,Y"`, whose comma-separated trimmed items are
`["X", "Y"]`, but the code splits only on the exact two-rune separator
`", "` and produces the single tag `"X,Y"` — the claim is false here. -/
theorem C5_counterexample :
    (genPage { Title := "A (X,Y)".data, Link := [], Date := 0,
               Summary := [], Read := false }).map (fun p => p.Meta.Tags)
      = some ["X,Y".data] ∧
    claimedTagList "X,Y".data = ["X".data, "Y".data] ∧
    (["X,Y".data] : List Str) ≠ ["X".data, "Y".data] := by decide

/-- C5 (amended): for a matched entry whose title is `pre(inner)` with no
parenthesis runes in `pre` or `inner`, the canonical title is `pre` trimmed of
surrounding whitespace, and the tag list is `inner` trimmed of surrounding
whitespace and split on the exact two-rune separator comma-space (items are
not individually trimmed, and a bare comma does not separate). -/
theorem C5_title_parse (pre inner lk sm : Str) (d : Nat) (r : Bool)
    (hpre : ∀ a ∈ pre, a ≠ '(')
    (hin : ∀ a ∈ inner, a ≠ '(' ∧ a ≠ ')') :
    genPage { Title := pre ++ '(' :: (inner ++ [')']), Link := lk,
              Date := d, Summary := sm, Read := r }
      = some { Meta := { Title := goTrimSpace pre, Link := lk, Date := d,
                         Tags := splitCommaSpace (goTrimSpace inner) },
               Summary := sm } := by
  have hclose : ∀ a ∈ inner ++ [')'], a ≠ '(' := by
    intro a ha
    rcases List.mem_append.mp ha with h1 | h1
    · exact (hin a h1).1
    · simp only [List.mem_singleton] at h1
      subst h1
      decide
  have hs : splitChar '(' (pre ++ '(' :: (inner ++ [')']))
      = pre :: [inner ++ [')']] := by
    rw [splitChar_peel '(' pre (inner ++ [')']) hpre,
      splitChar_no_sep '(' (inner ++ [')']) hclose]
  simp only [genPage, hs, trimParens_close inner hin]

/-- Witness for C5 at the claim's example title
`"CVE-2024-9999 (Linux, Kernel)"`: canonical title `"CVE-2024-9999"`, tag
list `["Linux", "Kernel"]`. -/
theorem C5_title_parse_witness :
    genPage { Title := "CVE-2024-9999 (Linux, Kernel)".data, Link := [],
              Date := 0, Summary := [], Read := false }
      = some { Meta := { Title := "CVE-2024-9999".data, Link := [], Date := 0,
                         Tags := ["Linux".data, "Kernel".data] },
               Summary := [] } := by
  have hshape : "CVE-2024-9999 (Linux, Kernel)".data
      = "CVE-2024-9999 ".data ++ '(' :: ("Linux, Kernel".data ++ [')']) := by
    decide
  rw [show ({ Title := "CVE-2024-9999 (Linux, Kernel)".data, Link := [],
              Date := 0, Summary := [], Read := false } : Item)
      = { Title := "CVE-2024-9999 ".data
            ++ '(' :: ("Linux, Kernel".data ++ [')']),
          Link := [], Date := 0, Summary := [], Read := false } from by
        rw [hshape]]
  rw [C5_title_parse "CVE-2024-9999 ".data "Linux, Kernel".data [] [] 0 false
    (by decide) (by decide)]
  decide

/-- C6: in generation mode, a per-entry failure — a matched entry whose title
lacks the parenthesized tag section, or a file write failure — stops the
batch: no entry after the failing one is attempted, so the result does not
depend on the remaining entries, and the batch reports a failure. -/
theorem C6_per_entry_failure_aborts (site : Str) (w : Str → Bool)
    (pre post : List Item) (bad : Item)
    (hpre : ∀ i ∈ pre, genItemOk site w i = true)
    (hbad : genItemOk site w bad = false) :
    (generateItems site w (pre ++ bad :: post)).failure.isSome = true ∧
    generateItems site w (pre ++ bad :: post)
      = generateItems site w (pre ++ [bad]) := by
  have hbadcase : genPage bad = none ∨ ∃ pg, genPage bad = some pg
      ∧ w (genFileName site pg.Meta.Title) = false := by
    unfold genItemOk at hbad
    cases hgp : genPage bad with
    | none => exact Or.inl rfl
    | some pg =>
      refine Or.inr ⟨pg, rfl, ?_⟩
      rw [hgp] at hbad
      simpa using hbad
  induction pre with
  | nil =>
    simp only [List.nil_append]
    rcases hbadcase with hgp | ⟨pg, hgp, hbw⟩
    · exact ⟨by simp [generateItems, hgp], by simp [generateItems, hgp]⟩
    · exact ⟨by simp [generateItems, hgp, hbw],
             by simp [generateItems, hgp, hbw]⟩
  | cons a pre ih =>
    have ha := hpre a (List.mem_cons_self a pre)
    have hpre2 : ∀ i ∈ pre, genItemOk site w i = true :=
      fun i hi => hpre i (List.mem_cons_of_mem a hi)
    obtain ⟨pg, hpg, hw⟩ : ∃ pg, genPage a = some pg
        ∧ w (genFileName site pg.Meta.Title) = true := by
      unfold genItemOk at ha
      cases hone : genPage a with
      | none => rw [hone] at ha; cases ha
      | some pg => exact ⟨pg, rfl, by rw [hone] at ha; exact ha⟩
    have ih2 := ih hpre2
    constructor
    · simp only [List.cons_append, generateItems, hpg, hw, if_true,
        List.append_eq]
      exact ih2.1
    · simp only [List.cons_append, generateItems, hpg, hw, if_true,
        List.append_eq]
      rw [ih2.2]

/-- An entry whose title has no `"("`, used by the C6 witness. -/
def badItem : Item :=
  { Title := "CVE-2024-0002 malformed".data, Link := "https://e/2".data,
    Date := 8, Summary := "s2".data, Read := false }

/-- Witness for C6: with one good entry before and one after, the batch stops
at the malformed title and the trailing entry has no effect on the result. -/
theorem C6_per_entry_failure_aborts_witness :
    (generateItems "site".data (fun _ => true)
        ([item0] ++ badItem :: [item0])).failure.isSome = true ∧
    generateItems "site".data (fun _ => true) ([item0] ++ badItem :: [item0])
      = generateItems "site".data (fun _ => true) ([item0] ++ [badItem]) :=
  C6_per_entry_failure_aborts "site".data (fun _ => true) [item0] [item0]
    badItem (by decide) (by decide)

/-- C7: the claim says an existing file is truncated and replaced entirely,
but main.go:263 opens with `O_CREATE|O_WRONLY` and no `O_TRUNC`: writing a
3-byte page over a 10-byte file leaves the old file's last 7 bytes in place.
With `O_TRUNC` the file would contain exactly the new page, as claimed. -/
theorem C7_no_truncate_residual_bytes :
    fileAfterOpenWrite cmdGenerateOpenFlags (some "0123456789".data)
        "abc".data = some "abc3456789".data ∧
    some ("abc3456789".data) ≠ some ("abc".data) ∧
    fileAfterOpenWrite { create := true, wronly := true, trunc := true }
        (some "0123456789".data) "abc".data = some "abc".data := by
  decide

/-- Every line of a blank file trims to empty, so the scan fails with the
distinguished error naming the file's path. -/
theorem firstNonEmptyLine_blank (p : Str) :
    ∀ lines : List Str, isBlankFile lines = true →
      firstNonEmptyLine p lines = .error (.emptyFilterFile p)
  | [], _ => rfl
  | l :: rest, h => by
    have hall := h
    simp only [isBlankFile, List.all_cons, Bool.and_eq_true] at hall
    simp only [firstNonEmptyLine, hall.1, if_true]
    exact firstNonEmptyLine_blank p rest hall.2

/-- A file with some non-blank line yields a filter string. -/
theorem firstNonEmptyLine_nonblank (p : Str) :
    ∀ lines : List Str, isBlankFile lines = false →
      ∃ l, firstNonEmptyLine p lines = .ok l
  | [], h => by simp [isBlankFile] at h
  | l :: rest, h => by
    cases hb : (goTrimSpace l).isEmpty with
    | true =>
      have hrest : isBlankFile rest = false := by
        simp only [isBlankFile, List.all_cons, hb, Bool.true_and] at h
        exact h
      obtain ⟨x, hx⟩ := firstNonEmptyLine_nonblank p rest hrest
      exact ⟨x, by simp [firstNonEmptyLine, hb, hx]⟩
    | false => exact ⟨l, by simp [firstNonEmptyLine, hb]⟩

/-- C8: for every filter directory containing at least one entirely blank
regular file (and no directory-walk error), the filter load fails with the
distinguished empty-filter-file error naming such a file's path, and no
mapping is returned (fail-fast, not skip-and-continue). -/
theorem C8_blank_filter_file_fails (entries : List DirEntry)
    (hw : ∀ e ∈ entries, e.walkErr = false)
    (hb : ∃ e ∈ entries, e.regular = true ∧ isBlankFile e.lines = true) :
    ∃ p, WalkAllFilesInFilterDir entries = .error (.emptyFilterFile p) ∧
      ∃ e ∈ entries, e.regular = true ∧ isBlankFile e.lines = true
        ∧ e.path = p := by
  induction entries with
  | nil => simp at hb
  | cons e rest ih =>
    have hwe : e.walkErr = false := hw e (List.mem_cons_self e rest)
    have hwrest : ∀ x ∈ rest, x.walkErr = false :=
      fun x hx => hw x (List.mem_cons_of_mem e hx)
    cases hr : e.regular with
    | true =>
      cases hbl : isBlankFile e.lines with
      | true =>
        refine ⟨e.path, ?_, e, List.mem_cons_self e rest, hr, hbl, rfl⟩
        simp [WalkAllFilesInFilterDir, hwe, hr,
          firstNonEmptyLine_blank e.path e.lines hbl]
      | false =>
        have hbrest : ∃ x ∈ rest, x.regular = true
            ∧ isBlankFile x.lines = true := by
          obtain ⟨x, hx, hx1, hx2⟩ := hb
          rcases List.mem_cons.mp hx with rfl | hxr
          · rw [hbl] at hx2; cases hx2
          · exact ⟨x, hxr, hx1, hx2⟩
        obtain ⟨p, hwalk, x, hx, hx1, hx2, hx3⟩ := ih hwrest hbrest
        obtain ⟨l, hl⟩ := firstNonEmptyLine_nonblank e.path e.lines hbl
        refine ⟨p, ?_, x, List.mem_cons_of_mem e hx, hx1, hx2, hx3⟩
        simp [WalkAllFilesInFilterDir, hwe, hr, hl, hwalk, Except.map]
    | false =>
      have hbrest : ∃ x ∈ rest, x.regular = true
          ∧ isBlankFile x.lines = true := by
        obtain ⟨x, hx, hx1, hx2⟩ := hb
        rcases List.mem_cons.mp hx with rfl | hxr
        · rw [hr] at hx1; cases hx1
        · exact ⟨x, hxr, hx1, hx2⟩
      obtain ⟨p, hwalk, x, hx, hx1, hx2, hx3⟩ := ih hwrest hbrest
      refine ⟨p, ?_, x, List.mem_cons_of_mem e hx, hx1, hx2, hx3⟩
      simp [WalkAllFilesInFilterDir, hwe, hr, hwalk]

/-- A list starts with its own left append part. -/
theorem strStartsWith_append : ∀ a b : Str, strStartsWith (a ++ b) a = true
  | [], b => by cases b <;> rfl
  | c :: a, b => by simp [strStartsWith, strStartsWith_append a b]

/-- `filepath.Clean` is the identity on a non-empty path with no separator
(one lexical component; `"."` and `".."` included). -/
theorem clean_single_segment (t : Str) (h : ∀ a ∈ t, a ≠ '/')
    (h0 : t ≠ []) : clean t = t := by
  by_cases hdot : t = ['.']
  · subst hdot; decide
  · obtain ⟨c, cs, rfl⟩ : ∃ c cs, t = c :: cs := by
      cases t with
      | nil => exact absurd rfl h0
      | cons c cs => exact ⟨c, cs, rfl⟩
    have habs : (((c :: cs : Str)).head? == some '/') = false := by
      simp [h c (List.mem_cons_self c cs)]
    have hk : cleanKeep (c :: cs) = true := by
      simp only [cleanKeep, List.isEmpty_cons, Bool.false_or]
      simp
      by_cases hc : c = '.'
      · exact Or.inr (fun hcs => hdot (by rw [hc, hcs]))
      · exact Or.inl hc
    have hsplit : splitChar '/' (c :: cs) = [c :: cs] :=
      splitChar_no_sep '/' (c :: cs) h
    unfold clean cleanComps
    rw [hsplit]
    simp only [habs, Bool.false_eq_true, if_false, List.filter_cons, hk,
      if_true, List.filter_nil, List.foldl_cons, List.foldl_nil]
    cases hdd : ((c :: cs : Str) == ['.', '.']) <;>
      simp [cleanStep, hdd, joinSep]

/-- `filepath.Clean` of `site//content/cve//` followed by one separator-free,
non-special segment keeps all components and normalises the slashes. -/
theorem clean_site_join (z : Str) (hz : ∀ a ∈ z, a ≠ '/')
    (hz0 : z ≠ []) (hz1 : z ≠ ['.']) (hz2 : z ≠ ['.', '.']) :
    clean ("site".data ++ '/' :: ("/content/cve/".data ++ '/' :: z))
      = "site/content/cve/".data ++ z := by
  have hshape : "site".data ++ '/' :: ("/content/cve/".data ++ '/' :: z)
      = "site".data ++ '/' :: ('/' ::
          ("content".data ++ '/' :: ("cve".data ++ '/' :: ('/' :: z)))) := by
    rw [show "/content/cve/".data
        = '/' :: ("content".data ++ '/' :: ("cve".data ++ ['/'])) from by
      decide]
    simp
  rw [hshape]
  have hsp : splitChar '/' ("site".data ++ '/' :: ('/' ::
        ("content".data ++ '/' :: ("cve".data ++ '/' :: ('/' :: z)))))
      = ["site".data, [], "content".data, "cve".data, [], z] := by
    rw [splitChar_peel '/' "site".data _ (by decide),
      splitChar_sep_head,
      splitChar_peel '/' "content".data _ (by decide),
      splitChar_peel '/' "cve".data _ (by decide),
      splitChar_sep_head,
      splitChar_no_sep '/' z hz]
  have habs : (("site".data ++ '/' :: ('/' ::
        ("content".data ++ '/' :: ("cve".data ++ '/' :: ('/' :: z))))).head?
      == some '/') = false := rfl
  have hkz : cleanKeep z = true := by
    have h1 : z.isEmpty = false := by
      cases z with
      | nil => exact absurd rfl hz0
      | cons a l => rfl
    have h2 : (z == ['.']) = false := by simp [hz1]
    simp [cleanKeep, h1, h2]
  have hzz : (z == ['.', '.']) = false := by simp [hz2]
  unfold clean cleanComps
  rw [hsp]
  simp only [habs, Bool.false_eq_true, if_false, List.filter_cons,
    List.filter_nil, List.foldl_cons, List.foldl_nil]
  simp only [show cleanKeep "site".data = true from by decide,
    show cleanKeep ([] : Str) = false from by decide,
    show cleanKeep "content".data = true from by decide,
    show cleanKeep "cve".data = true from by decide, hkz, if_true, if_false,
    Bool.false_eq_true]
  simp only [List.foldl_cons, List.foldl_nil, cleanStep,
    show ((['s', 'i', 't', 'e'] : Str) == ['.', '.']) = false from by decide,
    show ((['c', 'o', 'n', 't', 'e', 'n', 't'] : Str) == ['.', '.']) = false
      from by decide,
    show ((['c', 'v', 'e'] : Str) == ['.', '.']) = false from by decide,
    hzz, Bool.false_eq_true, if_false, List.nil_append]
  simp [joinSep]

/-- C9 counterexample: `filepath.Clean` keeps leading `".."` segments, so
the canonical title `"../../secret"` joins to `"site/secret.md"`, outside
`site/content/cve/` — the claimed sanitization does not prevent escape. -/
theorem C9_counterexample :
    genFileName "site".data "../../secret".data = "site/secret.md".data ∧
    strStartsWith (genFileName "site".data "../../secret".data)
      "site/content/cve/".data = false := by decide

/-- C9 (amended): for a canonical title whose lower-casing is non-empty and
contains no path separator, the joined output path is exactly
`site/content/cve/<lowered-title>.md`, under the content tree; titles
containing separators (hence `".."` path segments) can escape it. -/
theorem C9_sanitized_path_under_tree (title : Str)
    (h1 : ∀ a ∈ goToLower title, a ≠ '/') (h2 : goToLower title ≠ []) :
    genFileName "site".data title
      = "site/content/cve/".data ++ (goToLower title ++ ".md".data) ∧
    strStartsWith (genFileName "site".data title)
      "site/content/cve/".data = true := by
  have hclean : clean (goToLower title) = goToLower title :=
    clean_single_segment _ h1 h2
  have hz : ∀ a ∈ goToLower title ++ ".md".data, a ≠ '/' := by
    intro a ha
    rcases List.mem_append.mp ha with hm | hm
    · exact h1 a hm
    · simp only [show ".md".data = ['.', 'm', 'd'] from by decide,
        List.mem_cons, List.not_mem_nil, or_false] at hm
      rcases hm with rfl | rfl | rfl <;> decide
  have hz0 : goToLower title ++ ".md".data ≠ [] := by simp
  have hz1 : goToLower title ++ ".md".data ≠ ['.'] := by
    intro hcontra
    have := congrArg List.length hcontra
    simp [List.length_append] at this
  have hz2 : goToLower title ++ ".md".data ≠ ['.', '.'] := by
    intro hcontra
    have := congrArg List.length hcontra
    simp [List.length_append] at this
  have hmain : genFileName "site".data title
      = "site/content/cve/".data ++ (goToLower title ++ ".md".data) := by
    unfold genFileName goJoinList
    rw [hclean]
    simp only [show (("site".data : Str)).isEmpty = false from by decide,
      Bool.false_eq_true, if_false, joinSep]
    exact clean_site_join (goToLower title ++ ".md".data) hz hz0 hz1 hz2
  refine ⟨hmain, ?_⟩
  rw [hmain]
  exact strStartsWith_append _ _

/-- Witness for C9 at a well-formed canonical title. -/
theorem C9_sanitized_path_under_tree_witness :
    genFileName "site".data "CVE-2024-9999".data
      = "site/content/cve/".data
        ++ (goToLower "CVE-2024-9999".data ++ ".md".data) ∧
    strStartsWith (genFileName "site".data "CVE-2024-9999".data)
      "site/content/cve/".data = true :=
  C9_sanitized_path_under_tree "CVE-2024-9999".data (by decide) (by decide)

/-- A directory entry for an entirely blank filter file, used by the C8
witness. -/
def blankEntry : DirEntry :=
  { path := "conf/empty.txt".data, name := "empty.txt".data,
    regular := true, walkErr := false, lines := ["   ".data, []] }

/-- Witness for C8 at a directory with a good filter file followed by a
blank one. -/
theorem C8_blank_filter_file_fails_witness :
    ∃ p, WalkAllFilesInFilterDir
        [{ path := "conf/linux.txt".data, name := "linux.txt".data,
           regular := true, walkErr := false, lines := ["Linux".data] },
         blankEntry] = .error (.emptyFilterFile p) ∧
      ∃ e ∈ [{ path := "conf/linux.txt".data, name := "linux.txt".data,
               regular := true, walkErr := false,
               lines := ["Linux".data] }, blankEntry],
        e.regular = true ∧ isBlankFile e.lines = true ∧ e.path = p :=
  C8_blank_filter_file_fails _ (by decide)
    ⟨blankEntry, by simp, by decide, by decide⟩

end SecFeed
